import Mathlib

/-!
Verification of the tg_bot chat-bot pipeline: a shallow embedding of the
message chunking engine, the per-user to-do store, the completion-API
response handling, the style-preference resolution and the chunked send
loop, together with theorems settling the specified properties.

Strings are modelled as lists of characters; a Go `len` is the list
length (the spec's "text units").  Whitespace is the ASCII whitespace
set used by Go's `strings.Fields` fast path.
-/

/-- Characters of a string literal. -/
def chars (s : String) : List Char := s.data

/-- Whitespace predicate modelling the character class split on by Go's
`strings.Fields` and trimmed by `strings.TrimSpace` (ASCII set). -/
def isSpace (c : Char) : Bool :=
  c == ' ' || c == '\t' || c == '\n' || c == '\x0b' || c == '\x0c' || c == '\r'

/-- Accumulator worker for `fields`: `acc` is the word currently being
built (in order).  Models the scanning loop of Go's `strings.Fields`. -/
def fieldsAux : List Char → List Char → List (List Char)
  | [], acc => if acc = [] then [] else [acc]
  | c :: cs, acc =>
    if isSpace c then
      if acc = [] then fieldsAux cs [] else acc :: fieldsAux cs []
    else
      fieldsAux cs (acc ++ [c])

/-- Go `strings.Fields`: the whitespace-delimited words of a string. -/
def fields (s : List Char) : List (List Char) := fieldsAux s []

/-- Go `strings.TrimSpace` (leading part). -/
def trimLeft (s : List Char) : List Char := s.dropWhile (fun c => isSpace c)

/-- Go `strings.TrimSpace`: drop leading and trailing whitespace. -/
def trimSpace (s : List Char) : List Char :=
  ((trimLeft s).reverse.dropWhile (fun c => isSpace c)).reverse

/-- The word-packing loop of `splitMessage` (src/main.go, lines 241-258).
The state is the list of words still to pack and the current chunk
buffer `cur`; emitted chunks are returned in order.  Each Go loop
iteration first seals the buffer when appending the next word (plus one
separating space) would overflow, then appends the word (prefixed by a
space when the buffer is non-empty). -/
def splitWords (maxLength : Nat) : List (List Char) → List Char → List (List Char)
  | [], cur => if cur.length > 0 then [cur] else []
  | w :: ws, cur =>
    if cur.length + w.length + 1 > maxLength then
      if cur.length > 0 then
        cur :: splitWords maxLength ws w
      else
        splitWords maxLength ws w
    else
      if cur.length > 0 then
        splitWords maxLength ws (cur ++ ' ' :: w)
      else
        splitWords maxLength ws w

/-- `splitMessage` from src/main.go (lines 232-260): short texts are
returned whole, longer texts are split into word-packed chunks. -/
def splitMessage (text : List Char) (maxLength : Nat) : List (List Char) :=
  if text.length ≤ maxLength then [text]
  else splitWords maxLength (fields text) []

/-- Join a chunk list with single spaces (the spec's rejoin operation). -/
def joinSp : List (List Char) → List Char
  | [] => []
  | [c] => c
  | c :: c2 :: cs => c ++ ' ' :: joinSp (c2 :: cs)

/-- `MaxMessageLength` constant from src/main.go. -/
def MaxMessageLength : Nat := 4096

/-- Outcome of one chunk delivery attempt in `sendLongMessage`:
the Markdown send succeeds, or it fails and the plain-text fallback
succeeds, or both attempts fail. -/
inductive SendOutcome
  | ok
  | fallbackOk
  | fail
deriving DecidableEq

/-- The chunk-sending loop of `sendLongMessage` (src/main.go, lines
205-227) over an abstract transport oracle giving the outcome of the
delivery attempt for each chunk index.  Returns the chunk texts
delivered, in delivery order, and whether the loop completed without
error (on a failure the loop aborts and later chunks are never sent). -/
def sendChunksFrom (oracle : Nat → SendOutcome) : Nat → List (List Char) → List (List Char) × Bool
  | _, [] => ([], true)
  | i, c :: cs =>
    match oracle i with
    | SendOutcome.fail => ([], false)
    | SendOutcome.ok =>
      let r := sendChunksFrom oracle (i + 1) cs
      (c :: r.1, r.2)
    | SendOutcome.fallbackOk =>
      let r := sendChunksFrom oracle (i + 1) cs
      (c :: r.1, r.2)

/-- `sendLongMessage` from src/main.go (lines 176-229): a short text is
sent whole; a long text is split by `splitMessage` and the chunks are
sent strictly in order by the loop modelled in `sendChunksFrom`. -/
def sendLongMessage (oracle : Nat → SendOutcome) (text : List Char) : List (List Char) × Bool :=
  if text.length ≤ MaxMessageLength then
    match oracle 0 with
    | SendOutcome.fail => ([], false)
    | _ => ([text], true)
  else
    sendChunksFrom oracle 0 (splitMessage text MaxMessageLength)

/-- `TodoItem` from src/unnamed/part_000. -/
structure TodoItem where
  id : Int
  text : List Char
  done : Bool
  userID : Int
deriving DecidableEq

/-- `TodoList.AddItem` (src/unnamed/part_000, lines 29-41): appends an
item with `ID = len(items)+1` and returns the new item. -/
def AddItem (items : List TodoItem) (text : List Char) (userID : Int) :
    List TodoItem × TodoItem :=
  let item : TodoItem := ⟨(items.length : Int) + 1, text, false, userID⟩
  (items ++ [item], item)

/-- `TodoList.RemoveItem` (src/unnamed/part_000, lines 43-54): removes
the first item whose ID matches, reporting whether one was found. -/
def RemoveItem : List TodoItem → Int → List TodoItem × Bool
  | [], _ => ([], false)
  | it :: rest, id =>
    if it.id = id then (rest, true)
    else
      let r := RemoveItem rest id
      (it :: r.1, r.2)

/-- `TodoList.ToggleItem` (src/unnamed/part_000, lines 56-67): flips the
`done` flag of the first item whose ID matches. -/
def ToggleItem : List TodoItem → Int → List TodoItem × Bool
  | [], _ => ([], false)
  | it :: rest, id =>
    if it.id = id then ({ it with done := !it.done } :: rest, true)
    else
      let r := ToggleItem rest id
      (it :: r.1, r.2)

/-- Decimal rendering of an integer (Go `fmt.Sprintf` with a `%d` verb). -/
def intToChars (i : Int) : List Char :=
  if i < 0 then '-' :: Nat.toDigits 10 i.natAbs else Nat.toDigits 10 i.natAbs

/-- `TodoList.ListItems` (src/unnamed/part_000, lines 69-86). -/
def ListItems (items : List TodoItem) : List Char :=
  if items.length = 0 then chars ("Список задач пуст")
  else
    (items.map (fun it =>
      intToChars it.id ++ chars (". ") ++
        (if it.done then chars ("✅") else chars ("❌")) ++
        ' ' :: it.text ++ ['\n'])).flatten

/-- One mutation request against a user's to-do list. -/
inductive TodoOp
  | add (text : List Char) (userID : Int)
  | remove (id : Int)
  | toggle (id : Int)
deriving DecidableEq

/-- Whether an operation is a removal. -/
def TodoOp.isRemoveOp : TodoOp → Bool
  | .remove _ => true
  | _ => false

/-- Apply one operation to a list of items (keeping only the state). -/
def applyOp (items : List TodoItem) : TodoOp → List TodoItem
  | .add t u => (AddItem items t u).1
  | .remove id => (RemoveItem items id).1
  | .toggle id => (ToggleItem items id).1

/-- Run a sequence of operations from a given state. -/
def runFrom (items : List TodoItem) (ops : List TodoOp) : List TodoItem :=
  ops.foldl applyOp items

/-- Run a sequence of operations from the initially empty list. -/
def runOps (ops : List TodoOp) : List TodoItem := runFrom [] ops

/-- The ID sequence `1, 2, ..., n` assigned by `AddItem` to `n` items. -/
def seqIds (n : Nat) : List Int := (List.range n).map (fun i => Int.ofNat i + 1)

/-- Worker for `hasPre`, recursing on the prefix. -/
def hasPreAux : List Char → List Char → Bool
  | [], _ => true
  | _ :: _, [] => false
  | pc :: ps, c :: cs => c == pc && hasPreAux ps cs

/-- Go `strings.HasPrefix`. -/
def hasPre (s p : List Char) : Bool := hasPreAux p s

/-- Go `strings.TrimPrefix`: drops the prefix when present, otherwise
returns the string unchanged. -/
def trimPre (s p : List Char) : List Char :=
  if hasPre s p then s.drop p.length else s

/-- Decimal digit value of a character. -/
def digitVal (c : Char) : Option Nat :=
  if '0' ≤ c ∧ c ≤ '9' then some (c.toNat - '0'.toNat) else none

/-- Accumulating decimal parse of a digit string. -/
def digitsToNatAux : List Char → Nat → Option Nat
  | [], acc => some acc
  | c :: cs, acc =>
    match digitVal c with
    | none => none
    | some d => digitsToNatAux cs (acc * 10 + d)

/-- Parse a non-empty all-digit string as a natural number. -/
def digitsToNat : List Char → Option Nat
  | [] => none
  | c :: cs => digitsToNatAux (c :: cs) 0

/-- Go `strconv.Atoi` (overflow not modelled: every failure of this
parser is also an Atoi failure). -/
def atoi (s : List Char) : Option Int :=
  match s with
  | '+' :: rest => (digitsToNat rest).map (fun n => (n : Int))
  | '-' :: rest => (digitsToNat rest).map (fun n => -(n : Int))
  | _ => (digitsToNat s).map (fun n => (n : Int))

/-- The command-dispatch switch of the to-do bot's main loop
(src/unnamed/part_000, lines 119-160): maps the current item list and
the inbound text to the new item list and the reply text. -/
def handleTodoText (items : List TodoItem) (userID : Int) (text : List Char) :
    List TodoItem × List Char :=
  if hasPre text (chars ("/add ")) then
    let task := trimPre text (chars ("/add "))
    let r := AddItem items task userID
    (r.1, chars ("Задача добавлена: ") ++ r.2.text)
  else if hasPre text (chars ("/remove ")) then
    let idStr := trimPre text (chars ("/remove "))
    match atoi idStr with
    | none => (items, chars ("Неверный ID задачи"))
    | some id =>
      let r := RemoveItem items id
      if r.2 then (r.1, chars ("Задача удалена"))
      else (r.1, chars ("Задача не найдена"))
  else if hasPre text (chars ("/toggle ")) then
    let idStr := trimPre text (chars ("/toggle "))
    match atoi idStr with
    | none => (items, chars ("Неверный ID задачи"))
    | some id =>
      let r := ToggleItem items id
      if r.2 then (r.1, chars ("Статус задачи изменен"))
      else (r.1, chars ("Задача не найдена"))
  else if text = chars ("/list") then
    (items, ListItems items)
  else if text = chars ("/help") then
    (items, chars ("Доступные команды"))
  else
    (items, chars ("Используйте /help для просмотра доступных команд"))

/-- Parsed body of a Deepseek completion response in src/main.go:
the choice contents and the optional error message. -/
structure DeepseekResponse where
  choices : List (List Char)
  err : Option (List Char)
deriving DecidableEq

/-- Parsed body of a completion response holding only choices
(`DeepseekResponse` in src/unnamed/part_000 and `ChatResponse` in
src/unnamed/part_002). -/
structure ChatResponse where
  choices : List (List Char)
deriving DecidableEq

/-- The distinct error values produced by the completion calls. -/
inductive APIError
  | emptyKey
  | httpStatus (status : Nat) (body : List Char)
  | parseFailure
  | apiError (msg : List Char)
  | noChoices
deriving DecidableEq

/-- Response handling of `callDeepseekAPI` from src/main.go (lines
83-173), as a function of the API key, the HTTP status, the raw body
and the parse result of the body. -/
def callDeepseekAPI (apiKey : List Char) (status : Nat) (respBody : List Char)
    (parsed : Option DeepseekResponse) : Except APIError (List Char) :=
  if apiKey = [] then Except.error APIError.emptyKey
  else if status ≠ 200 then Except.error (APIError.httpStatus status respBody)
  else
    match parsed with
    | none => Except.error APIError.parseFailure
    | some r =>
      match r.err with
      | some m => Except.error (APIError.apiError m)
      | none =>
        match r.choices with
        | [] => Except.ok (chars ("Извините, не удалось получить ответ от ИИ"))
        | c :: _ => Except.ok (trimSpace c)

/-- Response handling of `callDeepseekAPI` from src/unnamed/part_000
(lines 200-259): no error field, the first choice is returned without
trimming, and empty choices yield a fallback success. -/
def callDeepseekAPIv0 (status : Nat) (respBody : List Char)
    (parsed : Option ChatResponse) : Except APIError (List Char) :=
  if status ≠ 200 then Except.error (APIError.httpStatus status respBody)
  else
    match parsed with
    | none => Except.error APIError.parseFailure
    | some r =>
      match r.choices with
      | c :: _ => Except.ok c
      | [] => Except.ok (chars ("Извините, не удалось получить ответ"))

/-- Response handling of `makeAIRequest` from src/unnamed/part_002
(lines 316-371): empty choices yield an error, not a fallback. -/
def makeAIRequest (status : Nat) (respBody : List Char)
    (parsed : Option ChatResponse) : Except APIError (List Char) :=
  if status ≠ 200 then Except.error (APIError.httpStatus status respBody)
  else
    match parsed with
    | none => Except.error APIError.parseFailure
    | some r =>
      match r.choices with
      | [] => Except.error APIError.noChoices
      | c :: _ => Except.ok c

/-- Outcome of the preference-store row query for a user
(`QueryRow ... .Scan` in src/unnamed/part_002). -/
inductive DBQueryResult
  | noRows
  | row (style : List Char)
  | failure
deriving DecidableEq

/-- `getUserStyle` from src/unnamed/part_002 (lines 162-172): a missing
row yields the default style, a query failure yields an error. -/
def getUserStyle : DBQueryResult → Except Unit (List Char)
  | DBQueryResult.noRows => Except.ok (chars ("friendly"))
  | DBQueryResult.row s => Except.ok s
  | DBQueryResult.failure => Except.error ()

/-- The friendly-style system prompt of src/unnamed/part_002. -/
def friendlyPrompt : List Char :=
  chars ("Ты дружелюбный и теплый ассистент, отвечаешь с использованием эмодзи.")

/-- The official-style system prompt of src/unnamed/part_002. -/
def officialPrompt : List Char :=
  chars ("Ты официальный, строгий и вежливый ассистент. Отвечай без эмодзи.")

/-- The meme-style system prompt of src/unnamed/part_002. -/
def memePrompt : List Char :=
  chars ("Ты ассистент, любящий юмор и мемы. Отвечай с забавными фразами и мемами.")

/-- The `stylePrompts` map lookup of src/unnamed/part_002 (aiChat,
lines 271-275). -/
def stylePrompts (style : List Char) : Option (List Char) :=
  if style = chars ("friendly") then some friendlyPrompt
  else if style = chars ("official") then some officialPrompt
  else if style = chars ("meme") then some memePrompt
  else none

/-- System-prompt selection of `aiChat` (src/unnamed/part_002, lines
263-279): the stored style is read, errors fall back to friendly, and
an unrecognized style key falls back to the friendly prompt. -/
def systemPromptFor (q : DBQueryResult) : List Char :=
  let style :=
    match getUserStyle q with
    | Except.ok s => s
    | Except.error _ => chars ("friendly")
  match stylePrompts style with
  | some p => p
  | none => (stylePrompts (chars ("friendly"))).getD []

/-! ### Library of facts about the chunking engine -/

lemma fieldsAux_append_space (b : List Char) :
    ∀ a acc, fieldsAux (a ++ ' ' :: b) acc = fieldsAux a acc ++ fieldsAux b [] := by
  intro a
  induction a with
  | nil =>
    intro acc
    by_cases h : acc = [] <;> simp [fieldsAux, isSpace, h]
  | cons c cs ih =>
    intro acc
    by_cases hsp : isSpace c
    · by_cases h : acc = [] <;> simp [fieldsAux, hsp, h, ih]
    · simp [fieldsAux, hsp, ih]

lemma fields_append_space (a b : List Char) :
    fields (a ++ ' ' :: b) = fields a ++ fields b := fieldsAux_append_space b a []

lemma fieldsAux_nospace :
    ∀ s acc, (∀ c ∈ s, isSpace c = false) → acc ≠ [] → fieldsAux s acc = [acc ++ s] := by
  intro s
  induction s with
  | nil => intro acc _ hacc; simp [fieldsAux, hacc]
  | cons c cs ih =>
    intro acc hns hacc
    have hc : isSpace c = false := hns c (List.mem_cons_self c cs)
    have hrest : ∀ c' ∈ cs, isSpace c' = false := fun c' h' => hns c' (List.mem_cons_of_mem c h')
    simp [fieldsAux, hc, ih (acc ++ [c]) hrest (by simp)]

lemma fields_single (w : List Char) (hw : w ≠ []) (hns : ∀ c ∈ w, isSpace c = false) :
    fields w = [w] := by
  cases w with
  | nil => exact absurd rfl hw
  | cons c cs =>
    have hc : isSpace c = false := hns c (List.mem_cons_self c cs)
    have hrest : ∀ c' ∈ cs, isSpace c' = false := fun c' h' => hns c' (List.mem_cons_of_mem c h')
    simp [fields, fieldsAux, hc, fieldsAux_nospace cs [c] hrest (by simp)]

lemma fieldsAux_mem :
    ∀ s acc, (acc ≠ [] → ∀ c ∈ acc, isSpace c = false) →
      ∀ w ∈ fieldsAux s acc, w ≠ [] ∧ ∀ c ∈ w, isSpace c = false := by
  intro s
  induction s with
  | nil =>
    intro acc hacc w hw
    by_cases h : acc = []
    · simp [fieldsAux, h] at hw
    · simp [fieldsAux, h] at hw
      subst hw
      exact ⟨h, hacc h⟩
  | cons c cs ih =>
    intro acc hacc w hw
    by_cases hsp : isSpace c
    · by_cases h : acc = []
      · rw [show fieldsAux (c :: cs) acc = fieldsAux cs [] by simp [fieldsAux, hsp, h]] at hw
        exact ih [] (by simp) w hw
      · rw [show fieldsAux (c :: cs) acc = acc :: fieldsAux cs [] by simp [fieldsAux, hsp, h]] at hw
        rcases List.mem_cons.mp hw with h1 | h1
        · subst h1; exact ⟨h, hacc h⟩
        · exact ih [] (by simp) w h1
    · rw [show fieldsAux (c :: cs) acc = fieldsAux cs (acc ++ [c]) by simp [fieldsAux, hsp]] at hw
      refine ih (acc ++ [c]) ?_ w hw
      intro _ c' hc'
      rcases List.mem_append.mp hc' with h1 | h1
      · exact hacc (by intro hh; simp [hh] at h1) c' h1
      · simp at h1; subst h1; simpa using hsp

lemma fields_mem (s : List Char) :
    ∀ w ∈ fields s, w ≠ [] ∧ ∀ c ∈ w, isSpace c = false :=
  fieldsAux_mem s [] (by simp)

lemma fieldsAux_allspace :
    ∀ s, (∀ c ∈ s, isSpace c = true) → fieldsAux s [] = [] := by
  intro s
  induction s with
  | nil => simp [fieldsAux]
  | cons c cs ih =>
    intro h
    have hc : isSpace c = true := h c (List.mem_cons_self c cs)
    simp [fieldsAux, hc, ih (fun c' h' => h c' (List.mem_cons_of_mem c h'))]
lemma splitWords_bound (maxL : Nat) (allw : List (List Char)) :
    ∀ ws cur, (∀ w ∈ ws, w ∈ allw) → (cur.length ≤ maxL ∨ cur ∈ allw) →
      ∀ chunk ∈ splitWords maxL ws cur, chunk.length ≤ maxL ∨ chunk ∈ allw := by
  intro ws
  induction ws with
  | nil =>
    intro cur _ hcur chunk hc
    by_cases h : cur.length > 0
    · simp [splitWords, h] at hc
      subst hc; exact hcur
    · simp [splitWords, h] at hc
  | cons w ws ih =>
    intro cur hws hcur chunk hc
    have hw : w ∈ allw := hws w (List.mem_cons_self w ws)
    have hws' : ∀ w' ∈ ws, w' ∈ allw := fun w' h' => hws w' (List.mem_cons_of_mem w h')
    by_cases hcond : cur.length + w.length + 1 > maxL
    · by_cases hlen : cur.length > 0
      · rw [show splitWords maxL (w :: ws) cur = cur :: splitWords maxL ws w by
          simp [splitWords, hcond, hlen]] at hc
        rcases List.mem_cons.mp hc with h1 | h1
        · subst h1; exact hcur
        · exact ih w hws' (Or.inr hw) chunk h1
      · rw [show splitWords maxL (w :: ws) cur = splitWords maxL ws w by
          simp [splitWords, hcond, hlen]] at hc
        exact ih w hws' (Or.inr hw) chunk hc
    · by_cases hlen : cur.length > 0
      · rw [show splitWords maxL (w :: ws) cur = splitWords maxL ws (cur ++ ' ' :: w) by
          simp [splitWords, hcond, hlen]] at hc
        refine ih (cur ++ ' ' :: w) hws' (Or.inl ?_) chunk hc
        simp only [List.length_append, List.length_cons]
        omega
      · rw [show splitWords maxL (w :: ws) cur = splitWords maxL ws w by
          simp [splitWords, hcond, hlen]] at hc
        refine ih w hws' (Or.inl ?_) chunk hc
        omega

lemma splitWords_chunk_ne_nil (maxL : Nat) :
    ∀ ws cur, ∀ chunk ∈ splitWords maxL ws cur, chunk ≠ [] := by
  intro ws
  induction ws with
  | nil =>
    intro cur chunk hc
    by_cases h : cur.length > 0
    · simp [splitWords, h] at hc
      subst hc
      exact List.ne_nil_of_length_pos h
    · simp [splitWords, h] at hc
  | cons w ws ih =>
    intro cur chunk hc
    by_cases hcond : cur.length + w.length + 1 > maxL
    · by_cases hlen : cur.length > 0
      · rw [show splitWords maxL (w :: ws) cur = cur :: splitWords maxL ws w by
          simp [splitWords, hcond, hlen]] at hc
        rcases List.mem_cons.mp hc with h1 | h1
        · subst h1; exact List.ne_nil_of_length_pos hlen
        · exact ih w chunk h1
      · rw [show splitWords maxL (w :: ws) cur = splitWords maxL ws w by
          simp [splitWords, hcond, hlen]] at hc
        exact ih w chunk hc
    · by_cases hlen : cur.length > 0
      · rw [show splitWords maxL (w :: ws) cur = splitWords maxL ws (cur ++ ' ' :: w) by
          simp [splitWords, hcond, hlen]] at hc
        exact ih (cur ++ ' ' :: w) chunk hc
      · rw [show splitWords maxL (w :: ws) cur = splitWords maxL ws w by
          simp [splitWords, hcond, hlen]] at hc
        exact ih w chunk hc

lemma splitWords_ne_nil (maxL : Nat) :
    ∀ ws cur, (∀ w ∈ ws, w ≠ []) → cur ≠ [] → splitWords maxL ws cur ≠ [] := by
  intro ws
  induction ws with
  | nil =>
    intro cur _ hcur
    have h : cur.length > 0 := List.length_pos.mpr hcur
    simp [splitWords, h]
  | cons w ws ih =>
    intro cur hws hcur
    have hw : w ≠ [] := hws w (List.mem_cons_self w ws)
    have hws' : ∀ w' ∈ ws, w' ≠ [] := fun w' h' => hws w' (List.mem_cons_of_mem w h')
    have hlen : cur.length > 0 := List.length_pos.mpr hcur
    by_cases hcond : cur.length + w.length + 1 > maxL
    · simp [splitWords, hcond, hlen]
    · rw [show splitWords maxL (w :: ws) cur = splitWords maxL ws (cur ++ ' ' :: w) by
        simp [splitWords, hcond, hlen]]
      exact ih (cur ++ ' ' :: w) hws' (by simp)

lemma joinSp_cons (c : List Char) (cs : List (List Char)) (h : cs ≠ []) :
    joinSp (c :: cs) = c ++ ' ' :: joinSp cs := by
  cases cs with
  | nil => exact absurd rfl h
  | cons c2 cs2 => rfl


lemma splitWords_join (maxL : Nat) :
    ∀ ws cur,
      (∀ w ∈ ws, w ≠ [] ∧ ∀ c ∈ w, isSpace c = false) →
      fields (joinSp (splitWords maxL ws cur)) = fields cur ++ ws := by
  intro ws
  induction ws with
  | nil =>
    intro cur _
    by_cases h : cur.length > 0
    · simp [splitWords, h, joinSp]
    · have hc : cur = [] := by
        simpa using List.eq_nil_of_length_eq_zero (Nat.eq_zero_of_not_pos h)
      simp [splitWords, h, hc, joinSp, fields, fieldsAux]
  | cons w ws ih =>
    intro cur hws
    obtain ⟨hw1, hw2⟩ := hws w (List.mem_cons_self w ws)
    have hws' : ∀ w' ∈ ws, w' ≠ [] ∧ ∀ c ∈ w', isSpace c = false :=
      fun w' h' => hws w' (List.mem_cons_of_mem w h')
    by_cases hcond : cur.length + w.length + 1 > maxL
    · by_cases hlen : cur.length > 0
      · rw [show splitWords maxL (w :: ws) cur = cur :: splitWords maxL ws w by
          simp [splitWords, hcond, hlen]]
        have hne : splitWords maxL ws w ≠ [] :=
          splitWords_ne_nil maxL ws w (fun w' h' => (hws' w' h').1) hw1
        rw [joinSp_cons _ _ hne, fields_append_space, ih w hws',
          fields_single w hw1 hw2]
        simp
      · have hc : cur = [] := by
          simpa using List.eq_nil_of_length_eq_zero (Nat.eq_zero_of_not_pos hlen)
        rw [show splitWords maxL (w :: ws) cur = splitWords maxL ws w by
          simp [splitWords, hcond, hlen]]
        rw [ih w hws', fields_single w hw1 hw2, hc]
        simp [fields, fieldsAux]
    · by_cases hlen : cur.length > 0
      · rw [show splitWords maxL (w :: ws) cur = splitWords maxL ws (cur ++ ' ' :: w) by
          simp [splitWords, hcond, hlen]]
        rw [ih (cur ++ ' ' :: w) hws', fields_append_space,
          fields_single w hw1 hw2]
        simp
      · have hc : cur = [] := by
          simpa using List.eq_nil_of_length_eq_zero (Nat.eq_zero_of_not_pos hlen)
        rw [show splitWords maxL (w :: ws) cur = splitWords maxL ws w by
          simp [splitWords, hcond, hlen]]
        rw [ih w hws', fields_single w hw1 hw2, hc]
        simp [fields, fieldsAux]


/-- Behaviour of the chunk-sending loop: whenever it reports success the
delivered sequence is exactly the chunk list, and in every case the
delivered sequence is an order-preserving initial segment of it. -/
lemma sendChunksFrom_spec (oracle : Nat → SendOutcome) :
    ∀ cs i,
      ((sendChunksFrom oracle i cs).2 = true → (sendChunksFrom oracle i cs).1 = cs) ∧
      ∃ rest, cs = (sendChunksFrom oracle i cs).1 ++ rest := by
  intro cs
  induction cs with
  | nil => intro i; exact ⟨fun _ => rfl, [], rfl⟩
  | cons c cs ih =>
    intro i
    cases ho : oracle i with
    | fail =>
      refine ⟨?_, c :: cs, ?_⟩ <;> simp [sendChunksFrom, ho]
    | ok =>
      obtain ⟨h1, rest, h2⟩ := ih (i + 1)
      refine ⟨?_, rest, ?_⟩ <;> simp [sendChunksFrom, ho]
      · intro h; exact h1 h
      · exact h2
    | fallbackOk =>
      obtain ⟨h1, rest, h2⟩ := ih (i + 1)
      refine ⟨?_, rest, ?_⟩ <;> simp [sendChunksFrom, ho]
      · intro h; exact h1 h
      · exact h2

/-- `ToggleItem` never changes the ID sequence of the list. -/
lemma toggle_map_id : ∀ (items : List TodoItem) (id : Int),
    ((ToggleItem items id).1).map TodoItem.id = items.map TodoItem.id := by
  intro items
  induction items with
  | nil => intro id; simp [ToggleItem]
  | cons it rest ih =>
    intro id
    by_cases h : it.id = id <;> simp [ToggleItem, h, ih]

lemma seqIds_succ (n : Nat) : seqIds (n + 1) = seqIds n ++ [(n : Int) + 1] := by
  simp [seqIds, List.range_succ]

/-- Invariant of removal-free runs: the ID sequence of the list is
always `1, 2, ..., n`. -/
lemma run_inv : ∀ (ops : List TodoOp) (items : List TodoItem),
    (∀ op ∈ ops, op.isRemoveOp = false) →
    items.map TodoItem.id = seqIds items.length →
    (runFrom items ops).map TodoItem.id = seqIds (runFrom items ops).length := by
  intro ops
  induction ops with
  | nil => intro items _ h; simpa [runFrom] using h
  | cons op ops ih =>
    intro items hops hinv
    have hops' : ∀ o ∈ ops, o.isRemoveOp = false :=
      fun o ho => hops o (List.mem_cons_of_mem op ho)
    rw [show runFrom items (op :: ops) = runFrom (applyOp items op) ops by
      simp [runFrom]]
    refine ih (applyOp items op) hops' ?_
    cases op with
    | add t u =>
      simp [applyOp, AddItem, hinv, seqIds_succ]
    | remove id =>
      have := hops (TodoOp.remove id) (List.mem_cons_self _ _)
      simp [TodoOp.isRemoveOp] at this
    | toggle id =>
      have hmap := toggle_map_id items id
      have hlen : ((ToggleItem items id).1).length = items.length := by
        have := congrArg List.length hmap
        simpa using this
      simp [applyOp, hmap, hlen, hinv]

/-- C1.  The claim as frozen is false: a single word longer than
`maxLength` is emitted as an oversized chunk.  Counterexample: with
`maxLength = 2` (positive) and `text = "abc"`, `splitMessage` returns
the single chunk `"abc"`, of length 3 > 2. -/
theorem c1_oversized_counterexample :
    0 < 2 ∧ splitMessage (chars ("abc")) 2 = [chars ("abc")] ∧
      2 < (chars ("abc")).length := by
  refine ⟨by decide, by decide, by decide⟩

/-- C1 (amended).  For every text and positive `maxLength`, every chunk
returned by `splitMessage` has length at most `maxLength`, except that
a chunk may be a single whitespace-delimited word of the text whose own
length exceeds `maxLength` (the documented oversized-word edge case). -/
theorem c1_chunk_bound (text : List Char) (maxL : Nat) (chunk : List Char)
    (_hpos : 0 < maxL) (hc : chunk ∈ splitMessage text maxL) :
    chunk.length ≤ maxL ∨ (chunk ∈ fields text ∧ maxL < chunk.length) := by
  by_cases h : text.length ≤ maxL
  · rw [show splitMessage text maxL = [text] by simp [splitMessage, h]] at hc
    simp at hc
    subst hc
    exact Or.inl h
  · rw [show splitMessage text maxL = splitWords maxL (fields text) [] by
      simp [splitMessage, h]] at hc
    have := splitWords_bound maxL (fields text) (fields text) []
      (fun w hw => hw) (Or.inl (by simp)) chunk hc
    rcases this with h1 | h1
    · exact Or.inl h1
    · by_cases h2 : chunk.length ≤ maxL
      · exact Or.inl h2
      · exact Or.inr ⟨h1, Nat.lt_of_not_le h2⟩

/-- C1 witness: the amended bound evaluated on a concrete input. -/
theorem c1_chunk_bound_witness :
    0 < 5 ∧ chars ("hi") ∈ splitMessage (chars ("abcdef hi")) 5 ∧
      ((chars ("hi")).length ≤ 5 ∨
        (chars ("hi") ∈ fields (chars ("abcdef hi")) ∧ 5 < (chars ("hi")).length)) :=
  ⟨by decide, by decide, c1_chunk_bound (chars ("abcdef hi")) 5 (chars ("hi"))
    (by decide) (by decide)⟩

/-- C2.  Joining the chunks of `splitMessage` with single spaces yields
exactly the original whitespace-delimited word sequence (no word
dropped, duplicated, reordered or split across chunks), and a text
within the limit is returned as the one-element sequence holding the
text unchanged. -/
theorem c2_rejoin_preserves_words (text : List Char) (maxL : Nat) :
    fields (joinSp (splitMessage text maxL)) = fields text ∧
      (text.length ≤ maxL → splitMessage text maxL = [text]) := by
  constructor
  · by_cases h : text.length ≤ maxL
    · simp [splitMessage, h, joinSp]
    · rw [show splitMessage text maxL = splitWords maxL (fields text) [] by
        simp [splitMessage, h]]
      rw [splitWords_join maxL (fields text) [] (fields_mem text)]
      simp [fields, fieldsAux]
  · intro h
    simp [splitMessage, h]

/-- C2 witness: the rejoin identity evaluated on a concrete input. -/
theorem c2_rejoin_preserves_words_witness :
    fields (joinSp (splitMessage (chars ("one two three")) 5)) =
      fields (chars ("one two three")) ∧
    ((chars ("hi")).length ≤ 10 ∧ splitMessage (chars ("hi")) 10 = [chars ("hi")]) :=
  ⟨(c2_rejoin_preserves_words (chars ("one two three")) 5).1,
    by decide, (c2_rejoin_preserves_words (chars ("hi")) 10).2 (by decide)⟩

/-- C3.  A single whitespace-free word longer than `maxLength` is
returned as the one-element sequence holding that word unmodified. -/
theorem c3_oversized_word_intact (w : List Char) (maxL : Nat)
    (hns : ∀ c ∈ w, isSpace c = false) (hlong : maxL < w.length) :
    splitMessage w maxL = [w] := by
  have hne : w ≠ [] :=
    List.ne_nil_of_length_pos (Nat.lt_of_le_of_lt (Nat.zero_le _) hlong)
  have h1 : ¬(w.length ≤ maxL) := Nat.not_le.mpr hlong
  rw [show splitMessage w maxL = splitWords maxL (fields w) [] by
    simp [splitMessage, h1]]
  rw [fields_single w hne hns]
  have hcond : ([] : List Char).length + w.length + 1 > maxL := by
    simp
    omega
  rw [show splitWords maxL [w] [] = splitWords maxL [] w by
    simp [splitWords, hcond]]
  simp [splitWords, List.length_pos.mpr hne]

/-- C3 witness: an oversized word on a concrete input. -/
theorem c3_oversized_word_intact_witness :
    (∀ c ∈ chars ("abcd"), isSpace c = false) ∧ 3 < (chars ("abcd")).length ∧
      splitMessage (chars ("abcd")) 3 = [chars ("abcd")] :=
  ⟨by decide, by decide,
    c3_oversized_word_intact (chars ("abcd")) 3 (by decide) (by decide)⟩

/-- C4.  The claim as frozen is false: because `AddItem` assigns
`id = len(items) + 1`, adding after a removal reuses a live ID.
Counterexample: add two items, remove ID 1, add again — the list then
holds two items both with ID 2. -/
theorem c4_duplicate_id_counterexample :
    ((runOps [TodoOp.add (chars ("a")) 0, TodoOp.add (chars ("b")) 0,
        TodoOp.remove 1, TodoOp.add (chars ("c")) 0]).map TodoItem.id) = [2, 2] ∧
    ¬ ((runOps [TodoOp.add (chars ("a")) 0, TodoOp.add (chars ("b")) 0,
        TodoOp.remove 1, TodoOp.add (chars ("c")) 0]).map TodoItem.id).Nodup := by
  refine ⟨by decide, by decide⟩

/-- C4 (amended).  For every sequence of `AddItem` and `ToggleItem`
operations (no `RemoveItem`) applied to an initially empty list, the
IDs of the items in the list are pairwise distinct positive integers
(in fact exactly `1, 2, ..., n`). -/
theorem c4_ids_distinct_without_removal (ops : List TodoOp)
    (h : ∀ op ∈ ops, op.isRemoveOp = false) :
    ((runOps ops).map TodoItem.id).Nodup ∧ ∀ it ∈ runOps ops, 0 < it.id := by
  have hinv : (runOps ops).map TodoItem.id = seqIds (runOps ops).length :=
    run_inv ops [] h (by simp [seqIds])
  constructor
  · rw [hinv]
    unfold seqIds
    have hinj : Function.Injective (fun i : Nat => Int.ofNat i + 1) := by
      intro a b hab
      simpa using hab
    exact List.Nodup.map hinj (List.nodup_range _)
  · intro it hit
    have hmem : it.id ∈ (runOps ops).map TodoItem.id :=
      List.mem_map_of_mem TodoItem.id hit
    rw [hinv] at hmem
    simp [seqIds] at hmem
    obtain ⟨i, _, hi⟩ := hmem
    omega

/-- C4 witness: a concrete removal-free run. -/
theorem c4_ids_distinct_without_removal_witness :
    (∀ op ∈ [TodoOp.add (chars ("x")) 1, TodoOp.toggle 1], op.isRemoveOp = false) ∧
    ((runOps [TodoOp.add (chars ("x")) 1, TodoOp.toggle 1]).map TodoItem.id).Nodup ∧
    ∀ it ∈ runOps [TodoOp.add (chars ("x")) 1, TodoOp.toggle 1], 0 < it.id :=
  ⟨by decide, c4_ids_distinct_without_removal _ (by decide)⟩

/-- C5.  The claim as frozen is false for the repository's part_002
variant: on HTTP 200 with an empty `choices` array, `makeAIRequest`
returns an error, not a fallback success. -/
theorem c5_empty_choices_counterexample :
    makeAIRequest 200 [] (some ⟨[]⟩) = Except.error APIError.noChoices := rfl

/-- C5 (amended).  On HTTP 200 with a parsed body holding zero choices,
the Deepseek completion calls (`callDeepseekAPI` of src/main.go, with
no error object in the body and a non-empty API key, and
`callDeepseekAPI` of src/unnamed/part_000) return their fixed fallback
text as a successful result; `makeAIRequest` of src/unnamed/part_002
instead returns an error. -/
theorem c5_empty_choices_fallback (key body body2 body3 : List Char)
    (hkey : key ≠ []) :
    callDeepseekAPI key 200 body (some ⟨[], none⟩) =
      Except.ok (chars ("Извините, не удалось получить ответ от ИИ")) ∧
    callDeepseekAPIv0 200 body2 (some ⟨[]⟩) =
      Except.ok (chars ("Извините, не удалось получить ответ")) ∧
    makeAIRequest 200 body3 (some ⟨[]⟩) = Except.error APIError.noChoices := by
  refine ⟨?_, rfl, rfl⟩
  simp [callDeepseekAPI, hkey]

/-- C5 witness: the fallback behaviour at a concrete key and body. -/
theorem c5_empty_choices_fallback_witness :
    chars ("k") ≠ [] ∧
    (callDeepseekAPI (chars ("k")) 200 [] (some ⟨[], none⟩) =
      Except.ok (chars ("Извините, не удалось получить ответ от ИИ")) ∧
    callDeepseekAPIv0 200 [] (some ⟨[]⟩) =
      Except.ok (chars ("Извините, не удалось получить ответ")) ∧
    makeAIRequest 200 [] (some ⟨[]⟩) = Except.error APIError.noChoices) :=
  ⟨by decide, c5_empty_choices_fallback (chars ("k")) [] [] [] (by decide)⟩

/-- C6.  Chunk delivery is strictly sequential: the delivered chunk
texts are exactly the `splitMessage` chunk list in order whenever the
send loop completes, and in every run (also one aborted by a transport
failure) the delivered texts form an order-preserving initial segment
of that chunk list — a later chunk is never sent before all earlier
ones. -/
theorem c6_chunks_in_order (oracle : Nat → SendOutcome) (text : List Char) :
    ((sendLongMessage oracle text).2 = true →
      (sendLongMessage oracle text).1 = splitMessage text MaxMessageLength) ∧
    ∃ rest, splitMessage text MaxMessageLength =
      (sendLongMessage oracle text).1 ++ rest := by
  by_cases h : text.length ≤ MaxMessageLength
  · have hsplit : splitMessage text MaxMessageLength = [text] := by
      simp [splitMessage, h]
    cases ho : oracle 0 with
    | fail =>
      rw [show sendLongMessage oracle text = ([], false) by
        simp [sendLongMessage, h, ho]]
      exact ⟨by simp, [text], by simp [hsplit]⟩
    | ok =>
      rw [show sendLongMessage oracle text = ([text], true) by
        simp [sendLongMessage, h, ho]]
      exact ⟨fun _ => hsplit.symm, [], by simp [hsplit]⟩
    | fallbackOk =>
      rw [show sendLongMessage oracle text = ([text], true) by
        simp [sendLongMessage, h, ho]]
      exact ⟨fun _ => hsplit.symm, [], by simp [hsplit]⟩
  · rw [show sendLongMessage oracle text =
        sendChunksFrom oracle 0 (splitMessage text MaxMessageLength) by
      simp [sendLongMessage, h]]
    exact sendChunksFrom_spec oracle (splitMessage text MaxMessageLength) 0

/-- C6 witness: a concrete all-successful delivery. -/
theorem c6_chunks_in_order_witness :
    (sendLongMessage (fun _ => SendOutcome.ok) (chars ("hey"))).2 = true ∧
    (sendLongMessage (fun _ => SendOutcome.ok) (chars ("hey"))).1 =
      splitMessage (chars ("hey")) MaxMessageLength :=
  ⟨by decide, (c6_chunks_in_order (fun _ => SendOutcome.ok) (chars ("hey"))).1 (by decide)⟩

/-- C7.  The claim as frozen is false for the repository's part_000
variant: its `callDeepseekAPI` returns the first choice without
trimming.  Counterexample: the content `" hi "` is returned with its
surrounding whitespace intact. -/
theorem c7_untrimmed_counterexample :
    callDeepseekAPIv0 200 [] (some ⟨[chars (" hi ")]⟩) =
      Except.ok (chars (" hi ")) ∧
    chars (" hi ") ≠ trimSpace (chars (" hi ")) :=
  ⟨rfl, by decide⟩

/-- C7 (amended).  On HTTP 200 with at least one choice,
`callDeepseekAPI` of src/main.go (given a non-empty API key and no
error object in the body) returns the first choice's content trimmed of
leading and trailing whitespace, with no error; `callDeepseekAPI` of
src/unnamed/part_000 returns the first choice's content unmodified
(untrimmed), with no error. -/
theorem c7_first_choice_trimmed (key body body2 c : List Char)
    (cs : List (List Char)) (hkey : key ≠ []) :
    callDeepseekAPI key 200 body (some ⟨c :: cs, none⟩) =
      Except.ok (trimSpace c) ∧
    callDeepseekAPIv0 200 body2 (some ⟨c :: cs⟩) = Except.ok c := by
  refine ⟨?_, rfl⟩
  simp [callDeepseekAPI, hkey]

/-- C7 witness: trimming at a concrete response. -/
theorem c7_first_choice_trimmed_witness :
    chars ("k") ≠ [] ∧
    (callDeepseekAPI (chars ("k")) 200 [] (some ⟨[chars (" ok ")], none⟩) =
      Except.ok (trimSpace (chars (" ok "))) ∧
    callDeepseekAPIv0 200 [] (some ⟨[chars (" ok ")]⟩) =
      Except.ok (chars (" ok "))) :=
  ⟨by decide, c7_first_choice_trimmed (chars ("k")) [] [] (chars (" ok ")) []
    (by decide)⟩

lemma hasPre_rm_add (arg : List Char) :
    hasPre (chars ("/remove ") ++ arg) (chars ("/add ")) = false := rfl

lemma hasPre_rm_rm (arg : List Char) :
    hasPre (chars ("/remove ") ++ arg) (chars ("/remove ")) = true := rfl

lemma trimPre_rm (arg : List Char) :
    trimPre (chars ("/remove ") ++ arg) (chars ("/remove ")) = arg := rfl

lemma hasPre_tg_add (arg : List Char) :
    hasPre (chars ("/toggle ") ++ arg) (chars ("/add ")) = false := rfl

lemma hasPre_tg_rm (arg : List Char) :
    hasPre (chars ("/toggle ") ++ arg) (chars ("/remove ")) = false := rfl

lemma hasPre_tg_tg (arg : List Char) :
    hasPre (chars ("/toggle ") ++ arg) (chars ("/toggle ")) = true := rfl

lemma trimPre_tg (arg : List Char) :
    trimPre (chars ("/toggle ") ++ arg) (chars ("/toggle ")) = arg := rfl

/-- C8.  A `/remove` or `/toggle` command whose argument does not parse
as an integer produces the inline error reply and leaves the task list
entirely unchanged: no store operation runs on the malformed input. -/
theorem c8_malformed_id_no_mutation (items : List TodoItem) (uid : Int)
    (arg : List Char) (h : atoi arg = none) :
    handleTodoText items uid (chars ("/remove ") ++ arg) =
      (items, chars ("Неверный ID задачи")) ∧
    handleTodoText items uid (chars ("/toggle ") ++ arg) =
      (items, chars ("Неверный ID задачи")) := by
  constructor
  · have e : handleTodoText items uid (chars ("/remove ") ++ arg) =
        (match atoi arg with
         | none => (items, chars ("Неверный ID задачи"))
         | some id =>
           let r := RemoveItem items id
           if r.2 then (r.1, chars ("Задача удалена"))
           else (r.1, chars ("Задача не найдена"))) := rfl
    rw [e, h]
  · have e : handleTodoText items uid (chars ("/toggle ") ++ arg) =
        (match atoi arg with
         | none => (items, chars ("Неверный ID задачи"))
         | some id =>
           let r := ToggleItem items id
           if r.2 then (r.1, chars ("Статус задачи изменен"))
           else (r.1, chars ("Задача не найдена"))) := rfl
    rw [e, h]

/-- C8 witness: a concrete malformed ID. -/
theorem c8_malformed_id_no_mutation_witness :
    atoi (chars ("abc")) = none ∧
    (handleTodoText [] 0 (chars ("/remove ") ++ chars ("abc")) =
      ([], chars ("Неверный ID задачи")) ∧
    handleTodoText [] 0 (chars ("/toggle ") ++ chars ("abc")) =
      ([], chars ("Неверный ID задачи"))) :=
  ⟨by decide, c8_malformed_id_no_mutation [] 0 (chars ("abc")) (by decide)⟩

/-- C9.  The system prompt passed to the completion call is the prompt
for the user's stored style; a missing preference row, a failed query,
or a stored style other than friendly/official/meme all resolve to the
friendly prompt. -/
theorem c9_style_resolution :
    systemPromptFor DBQueryResult.noRows = friendlyPrompt ∧
    systemPromptFor DBQueryResult.failure = friendlyPrompt ∧
    systemPromptFor (DBQueryResult.row (chars ("friendly"))) = friendlyPrompt ∧
    systemPromptFor (DBQueryResult.row (chars ("official"))) = officialPrompt ∧
    systemPromptFor (DBQueryResult.row (chars ("meme"))) = memePrompt ∧
    ∀ s, s ≠ chars ("friendly") → s ≠ chars ("official") → s ≠ chars ("meme") →
      systemPromptFor (DBQueryResult.row s) = friendlyPrompt := by
  refine ⟨by decide, by decide, by decide, by decide, by decide, ?_⟩
  intro s h1 h2 h3
  have hsp : stylePrompts s = none := by
    simp [stylePrompts, h1, h2, h3]
  have hfp : stylePrompts (chars ("friendly")) = some friendlyPrompt := rfl
  simp [systemPromptFor, getUserStyle, hsp, hfp]

/-- C9 witness: an unrecognized stored style at a concrete value. -/
theorem c9_style_resolution_witness :
    chars ("mystyle") ≠ chars ("friendly") ∧
    chars ("mystyle") ≠ chars ("official") ∧
    chars ("mystyle") ≠ chars ("meme") ∧
    systemPromptFor (DBQueryResult.row (chars ("mystyle"))) = friendlyPrompt :=
  ⟨by decide, by decide, by decide,
    c9_style_resolution.2.2.2.2.2 (chars ("mystyle")) (by decide) (by decide)
      (by decide)⟩

/-- C10.  The claim as frozen is false in its leading clause: for the
empty input text (which is within the length limit) `splitMessage`
returns a sequence containing the empty string. -/
theorem c10_empty_chunk_counterexample :
    splitMessage ([] : List Char) 4096 = [([] : List Char)] := rfl

/-- C10 (amended).  Every chunk produced on the splitting path
(`len(text) > maxLength`) is non-empty; consequently, a whitespace-only
input longer than `MaxMessageLength` splits into the empty chunk
sequence and `sendLongMessage` performs zero chunk sends while
reporting success, so the non-empty input is never delivered. -/
theorem c10_whitespace_undelivered :
    (∀ (text : List Char) (maxL : Nat) (chunk : List Char),
      maxL < text.length → chunk ∈ splitMessage text maxL → chunk ≠ []) ∧
    (∀ (oracle : Nat → SendOutcome) (text : List Char),
      (∀ c ∈ text, isSpace c = true) → MaxMessageLength < text.length →
      splitMessage text MaxMessageLength = [] ∧
        sendLongMessage oracle text = ([], true)) := by
  constructor
  · intro text maxL chunk hlong hc
    have h1 : ¬(text.length ≤ maxL) := Nat.not_le.mpr hlong
    rw [show splitMessage text maxL = splitWords maxL (fields text) [] by
      simp [splitMessage, h1]] at hc
    exact splitWords_chunk_ne_nil maxL (fields text) [] chunk hc
  · intro oracle text hsp hlong
    have h1 : ¬(text.length ≤ MaxMessageLength) := Nat.not_le.mpr hlong
    have hfields : fields text = [] := fieldsAux_allspace text hsp
    have hsplit : splitMessage text MaxMessageLength = [] := by
      rw [show splitMessage text MaxMessageLength =
          splitWords MaxMessageLength (fields text) [] by simp [splitMessage, h1]]
      rw [hfields]
      simp [splitWords]
    refine ⟨hsplit, ?_⟩
    rw [show sendLongMessage oracle text =
        sendChunksFrom oracle 0 (splitMessage text MaxMessageLength) by
      simp [sendLongMessage, h1]]
    rw [hsplit]
    rfl

/-- C10 witness: the amended statement at concrete inputs — an actual
split with non-empty chunks and a 4097-space input that vanishes. -/
theorem c10_whitespace_undelivered_witness :
    (1 < (chars ("ab")).length ∧
      ∀ chunk ∈ splitMessage (chars ("ab")) 1, chunk ≠ []) ∧
    ((∀ c ∈ List.replicate 4097 ' ', isSpace c = true) ∧
      MaxMessageLength < (List.replicate 4097 ' ').length ∧
      splitMessage (List.replicate 4097 ' ') MaxMessageLength = [] ∧
      sendLongMessage (fun _ => SendOutcome.ok) (List.replicate 4097 ' ') =
        ([], true)) := by
  have hsp : ∀ c ∈ List.replicate 4097 ' ', isSpace c = true := by
    intro c hc
    rw [List.eq_of_mem_replicate hc]
    decide
  have hlen : MaxMessageLength < (List.replicate 4097 ' ').length := by
    rw [List.length_replicate]
    decide
  obtain ⟨h1, h2⟩ := c10_whitespace_undelivered
  have hmain := h2 (fun _ => SendOutcome.ok) (List.replicate 4097 ' ') hsp hlen
  exact ⟨⟨by decide, fun chunk hc => h1 (chars ("ab")) 1 chunk (by decide) hc⟩,
    hsp, hlen, hmain.1, hmain.2⟩
